import Mathlib

/-!
# Verification of `async_url_downloads.py`

A shallow embedding of the asynchronous URL downloader: three response
readers (`request_url_response_content`, `request_url_response_json`,
`request_url_csv_list`), the concurrent batch dispatcher
(`request_url_responses`), and the two strategy runners
(`sequential_downloads`, `asynchronous_downloads`).

Modelling choices:

* Bytes are `Nat`; a response body arrives as a list of chunks, mirroring
  successive `response.content.read(1024)` calls; the stream reports
  end-of-stream by returning an empty chunk, so a well-formed stream has
  no empty chunk in the middle (`Response.WF`).
* The HTTP world is a deterministic map from URL to `Response`
  (`Session.fetch`): the same URL always yields the same status and body,
  as in the reference scenario.  Both the shared `aiohttp` session of the
  concurrent path and the per-request `requests` sessions of the
  sequential path observe this same world.
* Concurrency is modelled by an explicit completion schedule: `order`
  lists the task indices in the order in which their network I/O
  completes.  `asyncio.gather` is modelled by writing each completed
  task's result into its original slot (`assemble`), so order
  preservation is a theorem about arbitrary schedules, not a definition.
* A per-URL processing function that may raise returns `Except ε α`;
  `asyncio.gather` without `return_exceptions` propagates the first
  unhandled error, modelled by `runSchedule` returning `Except.error`.
-/

abbrev ByteSeq := List Nat

/-- An HTTP response: a success flag (`response.ok`, i.e. a 2xx status)
and the body, as the sequence of chunks that successive
`response.content.read(1024)` calls return. -/
structure Response where
  ok : Bool
  chunks : List ByteSeq

/-- The full response body (`response.content` in `requests`): the
concatenation of all chunks of the stream. -/
def Response.body (r : Response) : ByteSeq := r.chunks.flatten

/-- A well-formed stream returns an empty chunk only at end-of-stream:
no chunk in the list (which models the reads before end-of-stream) is
empty. -/
def Response.WF (r : Response) : Prop := ∀ c ∈ r.chunks, c ≠ []

instance (r : Response) : Decidable r.WF := by
  unfold Response.WF; infer_instance

/-- The HTTP world visible through a client session: each `GET url`
deterministically yields a response. -/
structure Session where
  fetch : String → Response

/-- The `while True: chunk = await response.content.read(1024);
b_array.extend(chunk); if not chunk: break` loop of
`request_url_response_content`: accumulate chunks, stopping at the first
empty read. -/
def drainChunks : List ByteSeq → ByteSeq
  | [] => []
  | c :: rest => if c.isEmpty then [] else c ++ drainChunks rest

/-- Model of `request_url_response_content(session, url)`: GET the URL; on a
success status drain the body chunk by chunk and return the accumulated
buffer, otherwise return an empty `bytearray`. -/
def request_url_response_content (session : Session) (url : String) : ByteSeq :=
  let response := session.fetch url
  if response.ok then drainChunks response.chunks else []

/-- Model of `request_url_response_json(session, url)`: GET the URL; on a success
status decode the whole body as a JSON mapping (the decoding itself is
done by the HTTP library and passed in as `decode`), otherwise return the
empty mapping `{}` (modelled as the empty association list). -/
def request_url_response_json (decode : ByteSeq → List (String × String))
    (session : Session) (url : String) : List (String × String) :=
  let response := session.fetch url
  if response.ok then decode response.body else []

/-- ASCII reading of the body used by `b_array.decode('utf-8')`; every
input exercised by the specification is ASCII, where UTF-8 decoding is
the identity on code points. -/
def decodeUtf8 (bs : ByteSeq) : String := String.mk (bs.map Char.ofNat)

/-- Split a character list at every occurrence of `sep`, keeping empty
pieces (the behaviour of splitting a string on a one-character
separator). -/
def splitCharOn (sep : Char) : List Char → List (List Char)
  | [] => [[]]
  | x :: xs =>
    let rest := splitCharOn sep xs
    if x = sep then [] :: rest
    else
      match rest with
      | [] => [[x]]
      | r :: rs => (x :: r) :: rs

/-- Python `str.splitlines()`: split on newline characters, without producing a
trailing empty line for a terminal newline (and yielding `[]` on the
empty string). -/
def splitlines (s : String) : List String :=
  let parts := (splitCharOn (Char.ofNat 10) s.data).map String.mk
  if parts.getLast? = some "" then parts.dropLast else parts

/-- One row of `csv.reader(..., delimiter=delimiter)` on an unquoted
line: an empty line yields an empty row, any other line is split at each
delimiter occurrence.  (No input of this program contains the `"` quote
character, where the `csv` dialect machinery would differ.) -/
def csvParseLine (delimiter : Char) (line : String) : List String :=
  if line = "" then []
  else (splitCharOn delimiter line.data).map String.mk

/-- Model of `request_url_csv_list(session, url, delimiter)`: GET the URL; on a
success status drain the body chunk by chunk, decode it as UTF-8, split
it into lines and parse each line as delimiter-separated fields;
otherwise return the sentinel table `[['']]`. -/
def request_url_csv_list (session : Session) (url : String)
    (delimiter : Char) : List (List String) :=
  let response := session.fetch url
  if response.ok then
    let b_array := drainChunks response.chunks
    let decoded_content := decodeUtf8 b_array
    (splitlines decoded_content).map (csvParseLine delimiter)
  else [[""]]

/-- The completion phase of `asyncio.gather`: process tasks in the order
their I/O completes (`order` lists original task indices); each task
applies the processing function to its URL.  The first task whose
processing function raises makes the whole gather raise
(`Except.error`); otherwise the completed `(index, result)` pairs are
collected. -/
def runSchedule (session : Session) (urls : List String)
    (request_url : Session → String → Except ε α) :
    List Nat → Except ε (List (Nat × α))
  | [] => .ok []
  | i :: rest =>
    match urls.get? i with
    | none => runSchedule session urls request_url rest
    | some url =>
      match request_url session url with
      | .error e => .error e
      | .ok a =>
        (runSchedule session urls request_url rest).map (fun cs => (i, a) :: cs)

/-- Positional reassembly performed by `asyncio.gather`: every completed
task writes its result into the slot of its original submission index. -/
def assemble (n : Nat) (completions : List (Nat × α)) : List (Option α) :=
  completions.foldl (fun acc p => acc.set p.1 (some p.2)) (List.replicate n none)

/-- Model of `request_url_responses(urls, request_url, ...)`: open one shared
session, schedule one task per URL with `asyncio.ensure_future`, and
`await asyncio.gather(*tasks)`.  `order` is the completion schedule of
the event loop; a slot holds `some r` once its task has delivered `r`. -/
def request_url_responses (session : Session) (urls : List String)
    (request_url : Session → String → Except ε α) (order : List Nat) :
    Except ε (List (Option α)) :=
  (runSchedule session urls request_url order).map (assemble urls.length)

/-- Model of `sequential_downloads(urls)`: one blocking GET per URL in input
order, appending the full body only when the response is a success. -/
def sequential_downloads (session : Session) (urls : List String) : List ByteSeq :=
  urls.foldl
    (fun downloads url =>
      let response := session.fetch url
      if response.ok then downloads ++ [response.body] else downloads)
    []

/-- Model of `asynchronous_downloads(urls)`: run the batch dispatcher with the
byte-content reader (which never raises in this model, hence the
arbitrary `Unit` error type). -/
def asynchronous_downloads (session : Session) (urls : List String)
    (order : List Nat) : Except Unit (List (Option ByteSeq)) :=
  request_url_responses session urls
    (fun s u => Except.ok (request_url_response_content s u)) order

/-- The completed tasks of a schedule on which no task raises: every
index of the completion order that addresses a URL contributes the pair
of the index and the processed result of that URL. -/
def completionsOf (session : Session) (urls : List String)
    (g : Session → String → α) (order : List Nat) : List (Nat × α) :=
  order.filterMap (fun i => (urls.get? i).map (fun u => (i, g session u)))

/-! ## Basic lemmas about the chunk-draining loop -/

/-- On a well-formed stream (no empty chunk before end-of-stream) the
read loop of the byte-content reader accumulates the whole body. -/
theorem drainChunks_eq_flatten (l : List ByteSeq) (h : ∀ c ∈ l, c ≠ []) :
    drainChunks l = l.flatten := by
  induction l with
  | nil => rfl
  | cons c rest ih =>
    have hc : c ≠ [] := h c (List.mem_cons_self c rest)
    rw [drainChunks, List.flatten_cons, if_neg, ih]
    · exact fun d hd => h d (List.mem_cons_of_mem _ hd)
    · simpa [List.isEmpty_iff] using hc

/-- A body with no bytes drains to the empty buffer, whatever its chunk
structure. -/
theorem drainChunks_eq_nil (l : List ByteSeq) (h : l.flatten = []) :
    drainChunks l = [] := by
  induction l with
  | nil => rfl
  | cons c rest ih =>
    rw [List.flatten_cons, List.append_eq_nil] at h
    rw [drainChunks, h.1]
    simp

/-! ## Claims about the response readers -/

/-- C7: for every URL whose HTTP response has a success status, the
byte-content reader returns the concatenation, in order, of all body
chunks read until the stream reports end-of-stream — the full response
body. -/
theorem claim_C7_content_reads_full_body (session : Session) (url : String)
    (hok : (session.fetch url).ok = true) (hwf : (session.fetch url).WF) :
    request_url_response_content session url = (session.fetch url).body := by
  rw [request_url_response_content]
  simp only [hok, if_true]
  exact drainChunks_eq_flatten _ hwf

theorem claim_C7_content_reads_full_body_witness :
    request_url_response_content ⟨fun _ => ⟨true, [[1, 2], [3]]⟩⟩ "u"
      = (Session.fetch ⟨fun _ => ⟨true, [[1, 2], [3]]⟩⟩ "u").body :=
  claim_C7_content_reads_full_body ⟨fun _ => ⟨true, [[1, 2], [3]]⟩⟩ "u"
    rfl (by decide)

/-- C3: for every URL whose HTTP response has a non-success status, none
of the three reader variants raises: the byte-content variant returns an
empty buffer, the structured variant returns an empty mapping, and the
row-table variant returns the single-row sentinel `[['']]`. -/
theorem claim_C3_empty_on_failure (decode : ByteSeq → List (String × String))
    (session : Session) (url : String) (delimiter : Char)
    (hfail : (session.fetch url).ok = false) :
    request_url_response_content session url = []
      ∧ request_url_response_json decode session url = []
      ∧ request_url_csv_list session url delimiter = [[""]] := by
  refine ⟨?_, ?_, ?_⟩
  · rw [request_url_response_content]
    simp [hfail]
  · rw [request_url_response_json]
    simp [hfail]
  · rw [request_url_csv_list]
    simp [hfail]

theorem claim_C3_empty_on_failure_witness :
    request_url_response_content ⟨fun _ => ⟨false, [[1]]⟩⟩ "u" = []
      ∧ request_url_response_json (fun _ => [("k", "v")])
          ⟨fun _ => ⟨false, [[1]]⟩⟩ "u" = []
      ∧ request_url_csv_list ⟨fun _ => ⟨false, [[1]]⟩⟩ "u" ',' = [[""]] :=
  claim_C3_empty_on_failure (fun _ => [("k", "v")])
    ⟨fun _ => ⟨false, [[1]]⟩⟩ "u" ',' rfl

/-- C8: for a successful response whose body decodes (as UTF-8) to the
text `a,b\nc,d`, the row-table reader with delimiter `,` returns
`[["a","b"],["c","d"]]`. -/
theorem claim_C8_csv_round_trip (session : Session) (url : String)
    (hok : (session.fetch url).ok = true) (hwf : (session.fetch url).WF)
    (hbody : decodeUtf8 (session.fetch url).body = "a,b\nc,d") :
    request_url_csv_list session url ',' = [["a", "b"], ["c", "d"]] := by
  rw [request_url_csv_list]
  simp only [hok, if_true]
  rw [drainChunks_eq_flatten _ hwf]
  rw [show (session.fetch url).chunks.flatten = (session.fetch url).body from rfl]
  rw [hbody]
  decide

theorem claim_C8_csv_round_trip_witness :
    request_url_csv_list ⟨fun _ => ⟨true, [[97, 44, 98, 10, 99, 44, 100]]⟩⟩ "u" ','
      = [["a", "b"], ["c", "d"]] :=
  claim_C8_csv_round_trip ⟨fun _ => ⟨true, [[97, 44, 98, 10, 99, 44, 100]]⟩⟩ "u"
    rfl (by decide) (by decide)

/-- C9: for a successful response whose body decodes to the text `a;b`,
the row-table reader with delimiter `;` returns `[["a","b"]]`, while the
same reader with the default comma delimiter returns `[["a;b"]]`. -/
theorem claim_C9_delimiter_configurability (session : Session) (url : String)
    (hok : (session.fetch url).ok = true) (hwf : (session.fetch url).WF)
    (hbody : decodeUtf8 (session.fetch url).body = "a;b") :
    request_url_csv_list session url ';' = [["a", "b"]]
      ∧ request_url_csv_list session url ',' = [["a;b"]] := by
  constructor <;>
  · rw [request_url_csv_list]
    simp only [hok, if_true]
    rw [drainChunks_eq_flatten _ hwf]
    rw [show (session.fetch url).chunks.flatten = (session.fetch url).body from rfl]
    rw [hbody]
    decide

theorem claim_C9_delimiter_configurability_witness :
    request_url_csv_list ⟨fun _ => ⟨true, [[97, 59, 98]]⟩⟩ "u" ';' = [["a", "b"]]
      ∧ request_url_csv_list ⟨fun _ => ⟨true, [[97, 59, 98]]⟩⟩ "u" ',' = [["a;b"]] :=
  claim_C9_delimiter_configurability ⟨fun _ => ⟨true, [[97, 59, 98]]⟩⟩ "u"
    rfl (by decide) (by decide)

/-- C10: the byte-content reader returns the identical empty buffer both
for a non-success response and for a successful response with an empty
body, so the caller cannot tell the two apart from the return value. -/
theorem claim_C10_empty_indistinguishable (s1 s2 : Session) (u1 u2 : String)
    (hfail : (s1.fetch u1).ok = false)
    (hok : (s2.fetch u2).ok = true) (hbody : (s2.fetch u2).body = []) :
    request_url_response_content s1 u1 = request_url_response_content s2 u2
      ∧ request_url_response_content s1 u1 = [] := by
  have h1 : request_url_response_content s1 u1 = [] := by
    rw [request_url_response_content]
    simp [hfail]
  have h2 : request_url_response_content s2 u2 = [] := by
    rw [request_url_response_content]
    simp only [hok, if_true]
    exact drainChunks_eq_nil _ hbody
  exact ⟨h1.trans h2.symm, h1⟩

theorem claim_C10_empty_indistinguishable_witness :
    request_url_response_content ⟨fun _ => ⟨false, [[5]]⟩⟩ "u"
        = request_url_response_content ⟨fun _ => ⟨true, []⟩⟩ "v"
      ∧ request_url_response_content ⟨fun _ => ⟨false, [[5]]⟩⟩ "u" = [] :=
  claim_C10_empty_indistinguishable ⟨fun _ => ⟨false, [[5]]⟩⟩ ⟨fun _ => ⟨true, []⟩⟩
    "u" "v" rfl rfl rfl

/-! ## Lemmas about the batch dispatcher -/

/-- Writing completed results into their slots never changes the number
of slots. -/
theorem foldl_set_length (cs : List (Nat × α)) (acc : List (Option α)) :
    (cs.foldl (fun acc p => acc.set p.1 (some p.2)) acc).length = acc.length := by
  induction cs generalizing acc with
  | nil => rfl
  | cons p rest ih => rw [List.foldl_cons, ih, List.length_set]

/-- A slot no completed task addresses keeps its value. -/
theorem foldl_set_get?_not_mem (cs : List (Nat × α)) (acc : List (Option α))
    (j : Nat) (hj : j ∉ cs.map Prod.fst) :
    (cs.foldl (fun acc p => acc.set p.1 (some p.2)) acc).get? j = acc.get? j := by
  induction cs generalizing acc with
  | nil => rfl
  | cons p rest ih =>
    rw [List.map_cons, List.mem_cons, not_or] at hj
    rw [List.foldl_cons, ih _ hj.2, List.get?_set_ne _ _ (Ne.symm hj.1)]

/-- If every completed task carries the value determined by its index,
then a slot some completed task addresses ends up holding that value —
whatever the completion order. -/
theorem foldl_set_get?_mem (G : Nat → α) (cs : List (Nat × α))
    (acc : List (Option α)) (hG : ∀ p ∈ cs, p.2 = G p.1) (j : Nat)
    (hmem : j ∈ cs.map Prod.fst) (hj : j < acc.length) :
    (cs.foldl (fun acc p => acc.set p.1 (some p.2)) acc).get? j
      = some (some (G j)) := by
  induction cs generalizing acc with
  | nil => simp at hmem
  | cons p rest ih =>
    rw [List.foldl_cons]
    by_cases hr : j ∈ rest.map Prod.fst
    · exact ih _ (fun q hq => hG q (List.mem_cons_of_mem _ hq)) hr
        (by rw [List.length_set]; exact hj)
    · have hpj : p.1 = j := by
        rw [List.map_cons, List.mem_cons] at hmem
        rcases hmem with h | h
        · exact h.symm
        · exact absurd h hr
      have h2 : p.2 = G j := by rw [hG p (List.mem_cons_self p rest), hpj]
      rw [foldl_set_get?_not_mem _ _ _ hr, hpj, h2,
        List.get?_set_eq_of_lt _ hj]

/-- When every index of the completion order addresses a URL, the
completed tasks are exactly the order's indices, in completion order. -/
theorem completionsOf_map_fst (session : Session) (urls : List String)
    (g : Session → String → α) (order : List Nat)
    (h : ∀ i ∈ order, i < urls.length) :
    (completionsOf session urls g order).map Prod.fst = order := by
  induction order with
  | nil => rfl
  | cons i rest ih =>
    have hi : i < urls.length := h i (List.mem_cons_self i rest)
    have hu : urls.get? i = some (urls.get ⟨i, hi⟩) := List.get?_eq_get hi
    simp only [completionsOf] at ih ⊢
    rw [List.filterMap_cons, hu]
    simp only [Option.map_some']
    rw [List.map_cons, ih (fun j hj => h j (List.mem_cons_of_mem _ hj))]

/-- Every completed task carries the processed value of the URL at its
index. -/
theorem completionsOf_snd (session : Session) (urls : List String)
    (g : Session → String → α) (order : List Nat) :
    ∀ p ∈ completionsOf session urls g order,
      p.2 = g session (urls.getD p.1 "") := by
  intro p hp
  rw [completionsOf, List.mem_filterMap] at hp
  obtain ⟨i, _, hi⟩ := hp
  cases hu : urls.get? i with
  | none => rw [hu] at hi; simp at hi
  | some u =>
    rw [hu] at hi
    simp only [Option.map_some', Option.some.injEq] at hi
    rw [← hi]
    rw [List.getD_eq_get?, hu]
    rfl

/-- A schedule on which no task raises runs to its completion list. -/
theorem runSchedule_pure (session : Session) (urls : List String)
    (g : Session → String → α) (order : List Nat) :
    (runSchedule session urls (fun s u => Except.ok (g s u)) order
        : Except Unit (List (Nat × α)))
      = Except.ok (completionsOf session urls g order) := by
  induction order with
  | nil => rfl
  | cons i rest ih =>
    simp only [completionsOf] at ih ⊢
    rw [runSchedule]
    cases hu : urls.get? i with
    | none =>
      simp only [List.filterMap_cons, hu, Option.map_none']
      exact ih
    | some u =>
      simp only [List.filterMap_cons, hu, Option.map_some']
      rw [ih]
      rfl

/-- Key dispatcher theorem: for every completion schedule that is a
permutation of the task indices, the batch dispatcher applied to a
processing function that never raises returns exactly the input URL
list mapped through the processing function — slot `i` holds the result
for `urls[i]`, independent of completion order. -/
theorem gather_pure (session : Session) (urls : List String)
    (g : Session → String → α) (order : List Nat)
    (hperm : order.Perm (List.range urls.length)) :
    (request_url_responses session urls (fun s u => Except.ok (g s u)) order
        : Except Unit (List (Option α)))
      = Except.ok (urls.map (fun u => some (g session u))) := by
  have hlt : ∀ i ∈ order, i < urls.length := fun i hi =>
    List.mem_range.mp (hperm.mem_iff.mp hi)
  rw [request_url_responses, runSchedule_pure]
  show Except.ok (assemble urls.length (completionsOf session urls g order)) = _
  congr 1
  apply List.ext_get?
  intro j
  by_cases hj : j < urls.length
  · have hmem : j ∈ (completionsOf session urls g order).map Prod.fst := by
      rw [completionsOf_map_fst session urls g order hlt]
      exact hperm.mem_iff.mpr (List.mem_range.mpr hj)
    have hu : urls.get? j = some (urls.get ⟨j, hj⟩) := List.get?_eq_get hj
    rw [assemble, foldl_set_get?_mem (fun k => g session (urls.getD k ""))
      _ _ (completionsOf_snd session urls g order) j hmem
      (by rw [List.length_replicate]; exact hj)]
    rw [List.get?_map, hu, List.getD_eq_get?, hu]
    rfl
  · have hlen : (assemble urls.length (completionsOf session urls g order)).length
        = urls.length := by
      rw [assemble, foldl_set_length, List.length_replicate]
    rw [List.get?_eq_none.mpr, List.get?_eq_none.mpr]
    · rw [List.length_map]; omega
    · rw [hlen]; omega

/-! ## Claims about the batch dispatcher -/

/-- C1: for every list of URLs and every completion schedule (any
permutation of the task indices), the batch dispatcher returns its
results in input order: slot `i` holds the value produced by applying
the processing function to `urls[i]`, regardless of the order in which
the individual fetch tasks complete. -/
theorem claim_C1_order_preservation (session : Session) (urls : List String)
    (g : Session → String → α) (order : List Nat)
    (hperm : order.Perm (List.range urls.length)) :
    (request_url_responses session urls (fun s u => Except.ok (g s u)) order
        : Except Unit (List (Option α)))
      = Except.ok (urls.map (fun u => some (g session u))) :=
  gather_pure session urls g order hperm

theorem claim_C1_order_preservation_witness :
    (request_url_responses ⟨fun u => ⟨true, [u.data.map Char.toNat]⟩⟩
        ["a", "b", "c"]
        (fun s u => Except.ok (request_url_response_content s u)) [2, 0, 1]
        : Except Unit (List (Option ByteSeq)))
      = Except.ok [some [97], some [98], some [99]] :=
  (claim_C1_order_preservation ⟨fun u => ⟨true, [u.data.map Char.toNat]⟩⟩
    ["a", "b", "c"] (fun s u => request_url_response_content s u) [2, 0, 1]
    (by decide)).trans rfl

/-- C2: whenever the batch dispatcher returns a result list (no task
raised), that list has exactly one slot per input URL:
`len(result) == len(urls)`, for every processing function — in
particular when some URLs return a non-success status, since the readers
then return their empty value rather than raising. -/
theorem claim_C2_length_invariant (session : Session) (urls : List String)
    (f : Session → String → Except ε α) (order : List Nat)
    (res : List (Option α))
    (h : request_url_responses session urls f order = Except.ok res) :
    res.length = urls.length := by
  rw [request_url_responses] at h
  cases hrs : runSchedule session urls f order with
  | error e => rw [hrs] at h; exact absurd h (by simp [Except.map])
  | ok cs =>
    rw [hrs] at h
    simp only [Except.map, Except.ok.injEq] at h
    rw [← h, assemble, foldl_set_length, List.length_replicate]

theorem claim_C2_length_invariant_witness :
    ([some [], some []] : List (Option ByteSeq)).length
      = (["a", "b"] : List String).length :=
  claim_C2_length_invariant ⟨fun _ => ⟨false, []⟩⟩ ["a", "b"]
    (fun s u => (Except.ok (request_url_response_content s u) : Except Unit ByteSeq))
    [1, 0] [some [], some []] rfl

/-- Any schedule prefix that yields a completion list met no raising
task: if `runSchedule` returns `ok`, every scheduled index holding a URL
had its processing function succeed. -/
theorem runSchedule_ok_no_error (session : Session) (urls : List String)
    (f : Session → String → Except ε α) (order : List Nat)
    (cs : List (Nat × α))
    (h : runSchedule session urls f order = Except.ok cs) :
    ∀ i ∈ order, ∀ u, urls.get? i = some u → ∀ e, f session u ≠ Except.error e := by
  induction order generalizing cs with
  | nil => intro i hi; exact absurd hi (List.not_mem_nil i)
  | cons i rest ih =>
    intro j hj u hu e hfe
    rw [runSchedule] at h
    rcases List.mem_cons.mp hj with hji | hjr
    · subst hji
      simp only [hu, hfe] at h
      exact Except.noConfusion h
    · cases hgu : urls.get? i with
      | none =>
        simp only [hgu] at h
        exact ih cs h j hjr u hu e hfe
      | some u' =>
        simp only [hgu] at h
        cases hfu : f session u' with
        | error e' =>
          simp only [hfu] at h
          exact Except.noConfusion h
        | ok a =>
          cases hrs : runSchedule session urls f rest with
          | error e' =>
            simp only [hfu, hrs, Except.map] at h
            exact Except.noConfusion h
          | ok cs' => exact ih cs' hrs j hjr u hu e hfe

/-- C4: if the per-URL processing function raises for any URL of the
batch, the dispatcher propagates an error to its caller and returns no
result list at all — no partial results. -/
theorem claim_C4_fail_fast (session : Session) (urls : List String)
    (f : Session → String → Except ε α) (order : List Nat) (url : String)
    (e : ε) (hmem : url ∈ urls) (hf : f session url = Except.error e)
    (hperm : order.Perm (List.range urls.length)) :
    ∃ e', request_url_responses session urls f order = Except.error e' := by
  cases hrs : runSchedule session urls f order with
  | error e' =>
    exact ⟨e', by rw [request_url_responses, hrs]; rfl⟩
  | ok cs =>
    exfalso
    obtain ⟨⟨i, hilt⟩, hi⟩ := List.mem_iff_get.mp hmem
    have hu : urls.get? i = some url := by
      rw [List.get?_eq_get hilt, hi]
    have hio : i ∈ order :=
      hperm.mem_iff.mpr (List.mem_range.mpr hilt)
    exact runSchedule_ok_no_error session urls f order cs hrs i hio url hu e hf

theorem claim_C4_fail_fast_witness :
    ∃ e', request_url_responses ⟨fun _ => ⟨true, []⟩⟩ ["a", "b"]
        (fun _ u => if u = "b" then Except.error "boom" else Except.ok ([] : ByteSeq))
        [1, 0]
      = Except.error e' :=
  claim_C4_fail_fast ⟨fun _ => ⟨true, []⟩⟩ ["a", "b"]
    (fun _ u => if u = "b" then Except.error "boom" else Except.ok ([] : ByteSeq))
    [1, 0] "b" "boom" (by decide) rfl (by decide)

/-! ## Lemmas about the strategy runners -/

/-- The byte-content reader on a successful, well-formed response
returns the full body (shared between several claims). -/
theorem content_eq_body (session : Session) (url : String)
    (hok : (session.fetch url).ok = true) (hwf : (session.fetch url).WF) :
    request_url_response_content session url = (session.fetch url).body := by
  rw [request_url_response_content]
  simp only [hok, if_true]
  exact drainChunks_eq_flatten _ hwf

/-- Unrolling the download loop of the sequential runner: the output is
the accumulator followed by the bodies of the successful responses, in
input order. -/
theorem sequential_downloads_foldl (session : Session) (urls : List String)
    (acc : List ByteSeq) :
    urls.foldl
        (fun downloads url =>
          let response := session.fetch url
          if response.ok then downloads ++ [response.body] else downloads)
        acc
      = acc ++ ((urls.filter fun u => (session.fetch u).ok).map
          fun u => (session.fetch u).body) := by
  induction urls generalizing acc with
  | nil => simp
  | cons u rest ih =>
    rw [List.foldl_cons, List.filter_cons]
    by_cases hok : (session.fetch u).ok = true
    · simp only [hok, if_true, List.map_cons]
      rw [ih, List.append_assoc]
      rfl
    · simp only [hok, if_false]
      exact ih acc

/-- The sequential runner returns exactly the bodies of the successful
responses, in input order: failed requests are dropped. -/
theorem sequential_downloads_eq (session : Session) (urls : List String) :
    sequential_downloads session urls
      = ((urls.filter fun u => (session.fetch u).ok).map
          fun u => (session.fetch u).body) := by
  rw [sequential_downloads, sequential_downloads_foldl, List.nil_append]

/-- Successes and failures partition the input URL list. -/
theorem length_ok_add_length_not_ok (session : Session) (urls : List String) :
    (urls.filter fun u => (session.fetch u).ok).length
        + (urls.filter fun u => !(session.fetch u).ok).length
      = urls.length := by
  induction urls with
  | nil => rfl
  | cons u rest ih =>
    rw [List.filter_cons, List.filter_cons]
    by_cases hok : (session.fetch u).ok = true
    · simp only [hok, Bool.not_true, if_true, Bool.false_eq_true, if_false,
        List.length_cons]
      omega
    · have hok' : (session.fetch u).ok = false := by
        revert hok; cases (session.fetch u).ok <;> simp
      simp only [hok', Bool.not_false, if_true, Bool.false_eq_true, if_false,
        List.length_cons]
      omega

/-! ## Claims about the strategy runners -/

/-- C5: for every list of URLs in which some subset returns a
non-success status, the sequential runner drops the failed requests: its
output is the bodies of the successful responses only (no empty entries
for failures), so its length is `len(urls)` minus the number of failing
URLs. -/
theorem claim_C5_sequential_drops_failures (session : Session)
    (urls : List String) :
    sequential_downloads session urls
        = ((urls.filter fun u => (session.fetch u).ok).map
            fun u => (session.fetch u).body)
      ∧ (sequential_downloads session urls).length
        = urls.length - (urls.filter fun u => !(session.fetch u).ok).length := by
  refine ⟨sequential_downloads_eq session urls, ?_⟩
  rw [sequential_downloads_eq, List.length_map]
  have h := length_ok_add_length_not_ok session urls
  omega

/-- C6: for a batch of 50 repeated requests to one URL that returns
success with identical bytes, the sequential result list and the
concurrent result list are element-wise equal (each concurrent slot
holds exactly the corresponding sequential body). -/
theorem claim_C6_strategies_agree (session : Session) (url : String)
    (order : List Nat) (hok : (session.fetch url).ok = true)
    (hwf : (session.fetch url).WF) (hperm : order.Perm (List.range 50)) :
    asynchronous_downloads session (List.replicate 50 url) order
      = Except.ok ((sequential_downloads session (List.replicate 50 url)).map
          some) := by
  rw [asynchronous_downloads]
  rw [gather_pure session (List.replicate 50 url) request_url_response_content
    order (by rw [List.length_replicate]; exact hperm)]
  congr 1
  rw [sequential_downloads_eq]
  have hfilter : ((List.replicate 50 url).filter
      fun u => (session.fetch u).ok) = List.replicate 50 url := by
    rw [List.filter_replicate, if_pos hok]
  rw [hfilter, List.map_replicate, List.map_replicate, List.map_replicate]
  rw [content_eq_body session url hok hwf]

theorem claim_C6_strategies_agree_witness :
    asynchronous_downloads ⟨fun _ => ⟨true, [[7]]⟩⟩ (List.replicate 50 "u")
        (List.range 50)
      = Except.ok ((sequential_downloads ⟨fun _ => ⟨true, [[7]]⟩⟩
          (List.replicate 50 "u")).map some) :=
  claim_C6_strategies_agree ⟨fun _ => ⟨true, [[7]]⟩⟩ "u" (List.range 50)
    rfl (by decide) (List.Perm.refl _)
